import Mathlib

/-!
Shallow embedding of the markvilar/navigation-toolbox repository.

Sources embedded here:
* src/src/filters.py        (FilterConfiguration, add_appendage,
                             remove_appendage, FIR_filter)
* src/Python/georeferencing.py
                            (calculate_lever_arm,
                             calculate_transducer_trajectory,
                             georeference_trajectories)

Python floats are modelled as real numbers, numpy arrays as lists
(lists of lists for 2-D arrays, rectangular by construction in numpy;
rectangularity is carried as a hypothesis where it matters).  Operations
that raise in Python (IndexError on an empty-array access, a numpy axis
error, float ZeroDivisionError) are modelled with Option, returning none
exactly where the Python code raises.  The helper module utilities.py and
the scipy filter-design routine are not part of src/: the quaternion
helpers are modelled from the spec (marked in their doc comments) and
scipy.signal.firwin is passed in as an uninterpreted deterministic
function of its scalar arguments.
-/

namespace Nav

/-- Filter configuration (class FilterConfiguration of src/src/filters.py).
Python ints are modelled as integers; appendage is only ever used as a
repetition count and slice bound, modelled as a natural number; cutoff and
sample_frequency are floats, modelled as reals. -/
structure FilterConfiguration where
  order : ℤ
  cutoff : ℝ
  appendage : ℕ
  sample_frequency : ℝ

/-- Constructor of FilterConfiguration: stores order, cutoff, appendage
and hard-codes sample_frequency = 0. -/
def FilterConfiguration.init (order : ℤ) (cutoff : ℝ) (appendage : ℕ) :
    FilterConfiguration :=
  ⟨order, cutoff, appendage, 0⟩

/-- Model of np.delete along one axis: keep each entry whose index does
not occur in the index list (duplicates in the index list are harmless,
as with np.delete). -/
def np_delete {α : Type*} (data : List α) (idx : List ℕ) : List α :=
  (data.enum.filter (fun p => decide (p.1 ∉ idx))).map Prod.snd

/-- Index list built inside remove_appendage (src/src/filters.py):
indices = [i for i in range(n)]; indices[:b] + indices[-b:].
Python slicing semantics: indices[:b] is the first min b n entries; for
b > 0 the slice indices[-b:] is the last min b n entries, which matches
drop (n - b) under truncated subtraction, but for b = 0 the slice
indices[-0:] equals indices[0:], the whole list. -/
def removedIndices (n b : ℕ) : List ℕ :=
  (List.range n).take b ++
    (if b = 0 then List.range n else (List.range n).drop (n - b))

/-- Constant-value boundary extension of a nonempty sequence: b copies of
the first sample in front, b copies of the last sample at the end.  This
is the payload of add_appendage for a nonempty input. -/
def padTotal {α : Type*} (data : List α) (b : ℕ) : List α :=
  match data with
  | [] => []
  | x :: xs =>
      List.replicate b x ++ (x :: xs) ++
        List.replicate b ((x :: xs).getLast (List.cons_ne_nil x xs))

/-- add_appendage (src/src/filters.py), 1-D branch: prepend
config.appendage copies of the first sample and append config.appendage
copies of the last sample.  np.take(data, 0) raises IndexError on an
empty array, modelled by none. -/
def add_appendage {α : Type*} (data : List α) (config : FilterConfiguration) :
    Option (List α) :=
  match data with
  | [] => none
  | x :: xs => some (padTotal (x :: xs) config.appendage)

/-- remove_appendage (src/src/filters.py), 1-D branch: delete the index
list removedIndices data.length config.appendage. -/
def remove_appendage {α : Type*} (data : List α) (config : FilterConfiguration) :
    List α :=
  np_delete data (removedIndices data.length config.appendage)

/-- add_appendage, N-D branch (along axis 1): the first and the last
column are each repeated config.appendage times, which on a rectangular
array pads every row; np.take(data, 0, axis=1) raises on an empty second
axis, modelled by none on the offending row. -/
def add_appendage2 {α : Type*} (data : List (List α))
    (config : FilterConfiguration) : Option (List (List α)) :=
  data.mapM (fun row => add_appendage row config)

/-- remove_appendage, N-D branch (along axis 1): length = data.shape[1],
the common row length of a rectangular array, and the same index deletion
is applied to every row. -/
def remove_appendage2 {α : Type*} (data : List (List α))
    (config : FilterConfiguration) : List (List α) :=
  data.map (fun row => np_delete row (removedIndices (data.headD []).length config.appendage))

/-- Numpy float array, restricted to the 1-D and 2-D shapes used by the
repository. -/
inductive NPArray where
  | one : List ℝ → NPArray
  | two : List (List ℝ) → NPArray

/-- Number of dimensions of an array (ndarray.ndim). -/
def NPArray.ndim : NPArray → ℕ
  | one _ => 1
  | two _ => 2

/-- Causal FIR filtering of a single sequence with coefficient list b and
unit denominator, the documented behaviour of scipy.signal.lfilter:
y n = sum over k of b k * x (n - k), truncated at the sequence start. -/
def lfilter1 (b : List ℝ) (x : List ℝ) : List ℝ :=
  (List.range x.length).map (fun n =>
    ((List.range b.length).map
      (fun k => if k ≤ n then b.getD k 0 * x.getD (n - k) 0 else 0)).sum)

/-- scipy.signal.lfilter applied along an axis; an out-of-range axis
raises (np.AxisError), modelled by none.  For 1-D data the valid axes are
0 and -1; for 2-D data axis 1 or -1 filters every row and axis 0 or -2
filters every column. -/
def lfilter (b : List ℝ) (data : NPArray) (axis : ℤ) : Option NPArray :=
  match data with
  | .one l => if axis = 0 ∨ axis = -1 then some (.one (lfilter1 b l)) else none
  | .two m =>
      if axis = 1 ∨ axis = -1 then some (.two (m.map (lfilter1 b)))
      else if axis = 0 ∨ axis = -2 then
        some (.two ((m.transpose.map (lfilter1 b)).transpose))
      else none

/-- Python float division, which raises ZeroDivisionError on a zero
denominator, modelled by none. -/
noncomputable def pydiv (a b : ℝ) : Option ℝ :=
  if b = 0 then none else some (a / b)

/-- FIR_filter (src/src/filters.py).  For 1-D data the axis argument is
overridden with -1.  scipy.signal.firwin is an external collaborator and
is passed in as an uninterpreted deterministic function of numtaps,
cutoff and fs.  The returned delay is 0.5 * (order - 1) /
sample_frequency, computed with Python float division. -/
noncomputable def FIR_filter (firwin : ℤ → ℝ → ℝ → List ℝ) (data : NPArray)
    (config : FilterConfiguration) (axis : ℤ) : Option (NPArray × ℝ) :=
  let ax := if data.ndim = 1 then -1 else axis
  let filt := firwin config.order config.cutoff config.sample_frequency
  match lfilter filt data ax with
  | none => none
  | some fd =>
      match pydiv (0.5 * ((config.order : ℝ) - 1)) config.sample_frequency with
      | none => none
      | some delay => some (fd, delay)

/-- Three-dimensional vector of reals (one numpy row of shape 3). -/
@[ext]
structure Vec3 where
  x : ℝ
  y : ℝ
  z : ℝ

instance : Zero Vec3 := ⟨⟨0, 0, 0⟩⟩

instance : Add Vec3 := ⟨fun a b => ⟨a.x + b.x, a.y + b.y, a.z + b.z⟩⟩

instance : Sub Vec3 := ⟨fun a b => ⟨a.x - b.x, a.y - b.y, a.z - b.z⟩⟩

/-- Modelled from the spec: utilities.vector_to_quaternion (the utilities
module is absent from src/) embeds a 3-vector as a pure quaternion with
zero scalar part. -/
def vector_to_quaternion (v : Vec3) : Quaternion ℝ := ⟨0, v.x, v.y, v.z⟩

/-- Modelled from the spec: utilities.quaternion_to_vector (absent from
src/) returns the vector (imaginary) part of a quaternion. -/
def quaternion_to_vector (q : Quaternion ℝ) : Vec3 := ⟨q.imI, q.imJ, q.imK⟩

/-- Modelled from the spec: utilities.quaternion_from_axis_angle (absent
from src/) builds the rotation quaternion with scalar part
cos (angle / 2) and vector part sin (angle / 2) times the unit axis. -/
noncomputable def quaternion_from_axis_angle (axis : Vec3) (angle : ℝ) :
    Quaternion ℝ :=
  ⟨Real.cos (angle / 2), Real.sin (angle / 2) * axis.x,
    Real.sin (angle / 2) * axis.y, Real.sin (angle / 2) * axis.z⟩

/-- Sandwich product q * v * conjugate q used throughout
src/Python/georeferencing.py (the quaternion package spells star as
conjugate), with v embedded as a pure quaternion. -/
noncomputable def rotate_vec (q : Quaternion ℝ) (v : Vec3) : Vec3 :=
  quaternion_to_vector (q * vector_to_quaternion v * star q)

/-- calculate_lever_arm (src/Python/georeferencing.py): a = arm[1],
b = arm[2], c = sqrt(a*a + b*b), alpha = arccos(b/c), phi = angle - alpha,
d = c*cos(phi), e = c*sin(phi); returns [-arm[0], e, -d]. -/
noncomputable def calculate_lever_arm (arm : Vec3) (angle : ℝ) : Vec3 :=
  let a := arm.y
  let b := arm.z
  let c := Real.sqrt (a * a + b * b)
  let alpha := Real.arccos (b / c)
  let phi := angle - alpha
  let d := c * Real.cos phi
  let e := c * Real.sin phi
  ⟨-arm.x, e, -d⟩

/-- Modelled from the spec (section 4.2), for comparison with the source:
c = sqrt(arm[1]^2 + arm[2]^2), alpha = arccos(arm[2]/c),
phi = angle - alpha, output [-arm[0], c*sin(phi), -(c*cos(phi))]. -/
noncomputable def leverArmSpec (arm : Vec3) (angle : ℝ) : Vec3 :=
  let c := Real.sqrt (arm.y ^ 2 + arm.z ^ 2)
  let alpha := Real.arccos (arm.z / c)
  let phi := angle - alpha
  ⟨-arm.x, c * Real.sin phi, -(c * Real.cos phi)⟩

/-- calculate_transducer_trajectory (src/Python/georeferencing.py):
rotate each lever arm by the matching attitude quaternion (sandwich with
the conjugate) and add it to the camera position.  The cam_directions the
source computes are dead values (never returned) and are omitted.  The
elementwise numpy products over equal-length arrays are zipWith. -/
noncomputable def calculate_transducer_trajectory (cam_positions : List Vec3)
    (cam_attitudes : List (Quaternion ℝ)) (lever_arms : List Vec3) :
    List Vec3 :=
  let rotated := List.zipWith (fun q v => rotate_vec q v) cam_attitudes lever_arms
  List.zipWith (fun p v => p + v) cam_positions rotated

/-- Rotation quaternion built by georeference_trajectories from the
initial roll, pitch, yaw angles: q_yaw * q_pitch * q_roll. -/
noncomputable def georefRotation (init_attitude : Vec3) : Quaternion ℝ :=
  let q_roll := quaternion_from_axis_angle ⟨1, 0, 0⟩ init_attitude.x
  let q_pitch := quaternion_from_axis_angle ⟨0, 1, 0⟩ init_attitude.y
  let q_yaw := quaternion_from_axis_angle ⟨0, 0, 1⟩ init_attitude.z
  q_yaw * q_pitch * q_roll

/-- georeference_trajectories (src/Python/georeferencing.py): rotate the
attitudes by left multiplication and the positions by the sandwich
product, then translate camera and transducer positions by
init_position - first rotated transducer sample.  trans_positions[0, :]
raises IndexError on an empty array, modelled by none.  The
cam_directions the source computes are dead values (never returned) and
are omitted.  Returns (cam_positions, cam_attitudes, trans_positions). -/
noncomputable def georeference_trajectories (cam_positions : List Vec3)
    (cam_attitudes : List (Quaternion ℝ)) (trans_positions : List Vec3)
    (init_position init_attitude : Vec3) :
    Option (List Vec3 × List (Quaternion ℝ) × List Vec3) :=
  let rot := georefRotation init_attitude
  let cam_att := cam_attitudes.map (fun q => rot * q)
  let camP := cam_positions.map (fun p => rotate_vec rot p)
  let transP := trans_positions.map (fun p => rotate_vec rot p)
  match transP.head? with
  | none => none
  | some t0 =>
      some (camP.map (fun p => p - t0 + init_position), cam_att,
        transP.map (fun p => p - t0 + init_position))

/-- Uninterpreted stand-in filter design function used by concrete
witnesses: any fixed function works because the theorems quantify over
the design function. -/
def firwinZero : ℤ → ℝ → ℝ → List ℝ := fun _ _ _ => []

/-- Concrete filter configuration with a positive sample frequency, used
by witnesses. -/
def cfg100 : FilterConfiguration := ⟨8, 1, 10, 100⟩

/-- Concrete output value of FIR_filter on cfg100 and the singleton
sample list, used by the delay witness. -/
noncomputable def outEx : NPArray × ℝ :=
  (NPArray.one (lfilter1 (firwinZero 8 1 100) [0]), 0.5 * (((8 : ℤ) : ℝ) - 1) / 100)

/- Component lemmas for the Vec3 arithmetic instances. -/

@[simp]
theorem Vec3.zero_x : (0 : Vec3).x = 0 := rfl

@[simp]
theorem Vec3.zero_y : (0 : Vec3).y = 0 := rfl

@[simp]
theorem Vec3.zero_z : (0 : Vec3).z = 0 := rfl

@[simp]
theorem Vec3.add_x (a b : Vec3) : (a + b).x = a.x + b.x := rfl

@[simp]
theorem Vec3.add_y (a b : Vec3) : (a + b).y = a.y + b.y := rfl

@[simp]
theorem Vec3.add_z (a b : Vec3) : (a + b).z = a.z + b.z := rfl

@[simp]
theorem Vec3.sub_x (a b : Vec3) : (a - b).x = a.x - b.x := rfl

@[simp]
theorem Vec3.sub_y (a b : Vec3) : (a - b).y = a.y - b.y := rfl

@[simp]
theorem Vec3.sub_z (a b : Vec3) : (a - b).z = a.z - b.z := rfl

/-- Helper: the translation step applied at the reference sample itself
gives back the reference translation target. -/
@[simp]
theorem Vec3.sub_self_add (a b : Vec3) : a - a + b = b := by
  ext <;> simp

/-- Helper: translating two points by the same offset preserves their
difference. -/
theorem Vec3.sub_translate (a b t p : Vec3) :
    (a - t + p) - (b - t + p) = a - b := by
  ext <;> simp

/-- Helper: adding the zero vector is the identity. -/
@[simp]
theorem Vec3.add_zero_vec (a : Vec3) : a + 0 = a := by
  ext <;> simp

/- Claim C7: the delay returned by FIR_filter. -/

/-- C7: for every filter configuration with sample_frequency fs > 0 and
every call of FIR_filter that returns a result, the returned scalar delay
equals 0.5 * (order - 1) / fs exactly. -/
theorem FIR_filter_delay (firwin : ℤ → ℝ → ℝ → List ℝ) (data : NPArray)
    (config : FilterConfiguration) (axis : ℤ) (out : NPArray × ℝ)
    (hfs : 0 < config.sample_frequency)
    (h : FIR_filter firwin data config axis = some out) :
    out.2 = 0.5 * ((config.order : ℝ) - 1) / config.sample_frequency := by
  simp only [FIR_filter] at h
  cases hl : lfilter (firwin config.order config.cutoff config.sample_frequency)
      data (if data.ndim = 1 then -1 else axis) with
  | none => rw [hl] at h; simp at h
  | some fd =>
      rw [hl] at h
      unfold pydiv at h
      rw [if_neg (ne_of_gt hfs)] at h
      simp only [Option.some.injEq] at h
      rw [← h]

/-- Witness for C7 at a concrete configuration with fs = 100. -/
theorem FIR_filter_delay_witness :
    (0 : ℝ) < cfg100.sample_frequency ∧
      outEx.2 = 0.5 * ((cfg100.order : ℝ) - 1) / cfg100.sample_frequency := by
  refine ⟨by norm_num [cfg100], ?_⟩
  exact FIR_filter_delay firwinZero (NPArray.one [0]) cfg100 0 outEx
    (by norm_num [cfg100])
    (by simp [FIR_filter, lfilter, pydiv, NPArray.ndim, cfg100, outEx, firwinZero])

/- Claim C8: the axis override for 1-D inputs. -/

/-- C8: for 1-D input FIR_filter forces axis = -1, so its result does not
depend on the axis argument supplied by the caller. -/
theorem FIR_filter_axis_override (firwin : ℤ → ℝ → ℝ → List ℝ) (l : List ℝ)
    (config : FilterConfiguration) (axis1 axis2 : ℤ) :
    FIR_filter firwin (NPArray.one l) config axis1 =
      FIR_filter firwin (NPArray.one l) config axis2 := rfl

/- Claim C10: a freshly constructed configuration divides by zero. -/

/-- C10: the FilterConfiguration constructor sets sample_frequency to 0,
and FIR_filter performs no validation: with a fresh configuration the
delay computation 0.5 * (order - 1) / 0 fails (Python float division by
zero raises ZeroDivisionError), so no result is produced, for every data
array and axis. -/
theorem FIR_filter_fresh_config_div_zero (order : ℤ) (cutoff : ℝ) (appendage : ℕ) :
    (FilterConfiguration.init order cutoff appendage).sample_frequency = 0 ∧
      ∀ (firwin : ℤ → ℝ → ℝ → List ℝ) (data : NPArray) (axis : ℤ),
        FIR_filter firwin data (FilterConfiguration.init order cutoff appendage) axis
          = none := by
  refine ⟨rfl, ?_⟩
  intro firwin data axis
  simp only [FIR_filter]
  cases hl : lfilter
      (firwin (FilterConfiguration.init order cutoff appendage).order
        (FilterConfiguration.init order cutoff appendage).cutoff
        (FilterConfiguration.init order cutoff appendage).sample_frequency)
      data (if data.ndim = 1 then -1 else axis) with
  | none => rfl
  | some fd => simp [pydiv, FilterConfiguration.init]

/- List helper lemmas for the padding proofs. -/

/-- Helper: membership in a take of a range. -/
theorem mem_take_range {m n i : ℕ} : i ∈ (List.range n).take m ↔ i < m ∧ i < n := by
  rw [List.take_range, List.mem_range]
  omega

/-- Helper: dropping m entries of range n leaves range' m (n - m). -/
theorem drop_range_eq (m n : ℕ) (h : m ≤ n) :
    (List.range n).drop m = List.range' m (n - m) := by
  have h2 : List.range' 0 m ++ List.range' (0 + m) (n - m) = List.range' 0 n := by
    rw [List.range'_append_1]
    congr 1
    omega
  rw [List.range_eq_range', ← h2, List.drop_left' (by simp), Nat.zero_add]

/-- Helper: membership in a drop of a range. -/
theorem mem_drop_range {m n i : ℕ} (h : m ≤ n) :
    i ∈ (List.range n).drop m ↔ m ≤ i ∧ i < n := by
  rw [drop_range_eq m n h, List.mem_range'_1]
  omega

/-- Helper: for a positive boundary b that fits the length n, the removed
index list contains exactly the indices outside the window [b, n - b). -/
theorem mem_removedIndices {n b i : ℕ} (hb : b ≠ 0) (hbn : b ≤ n) (hi : i < n) :
    i ∈ removedIndices n b ↔ ¬(b ≤ i ∧ i < n - b) := by
  unfold removedIndices
  rw [if_neg hb, List.mem_append, mem_take_range, mem_drop_range (Nat.sub_le n b)]
  omega

/-- Helper: every index produced by enum is below the list length. -/
theorem fst_lt_of_mem_enum {α : Type*} {p : ℕ × α} {l : List α}
    (h : p ∈ l.enum) : p.1 < l.length := by
  have h2 : p ∈ l.enumFrom 0 := h
  have h3 := List.fst_lt_add_of_mem_enumFrom h2
  simpa using h3

/-- Helper: filtering an enumerated list by an index window and dropping
the indices is a take-then-drop of the underlying list. -/
theorem filter_enumFrom_window {α : Type*} (bb cc : ℕ) (l : List α) :
    ∀ s : ℕ,
      ((List.enumFrom s l).filter
          (fun p => decide (bb ≤ p.1) && decide (p.1 < cc))).map Prod.snd
        = (l.take (cc - s)).drop (bb - s) := by
  induction l with
  | nil => intro s; simp
  | cons a t ih =>
    intro s
    rw [List.enumFrom_cons, List.filter_cons]
    by_cases hs : s < cc
    · rw [show cc - s = (cc - (s + 1)) + 1 by omega, List.take_succ_cons]
      by_cases hb : bb ≤ s
      · rw [if_pos (by simp [hb, hs]), show bb - s = 0 by omega, List.drop_zero,
          List.map_cons, ih (s + 1), show bb - (s + 1) = 0 by omega, List.drop_zero]
      · rw [if_neg (by simp [hb]), ih (s + 1),
          show bb - s = (bb - (s + 1)) + 1 by omega, List.drop_succ_cons]
    · rw [if_neg (by simp [hs]), ih (s + 1), show cc - s = 0 by omega,
        show cc - (s + 1) = 0 by omega]
      simp

/-- Helper: np_delete with an index list that holds exactly the indices
outside the window [bb, cc) is a take-then-drop. -/
theorem np_delete_window {α : Type*} (l : List α) (idx : List ℕ) (bb cc : ℕ)
    (h : ∀ i, i < l.length → (i ∈ idx ↔ ¬(bb ≤ i ∧ i < cc))) :
    np_delete l idx = (l.take cc).drop bb := by
  unfold np_delete
  have hcongr : ∀ p ∈ l.enum, (decide (p.1 ∉ idx))
      = (decide (bb ≤ p.1) && decide (p.1 < cc)) := by
    intro p hp
    have hlt := fst_lt_of_mem_enum hp
    have hiff : (p.1 ∉ idx) ↔ (bb ≤ p.1 ∧ p.1 < cc) := by
      rw [h p.1 hlt]
      exact not_not
    by_cases h1 : bb ≤ p.1 <;> by_cases h2 : p.1 < cc <;>
      simp [h1, h2, hiff]
  rw [List.filter_congr hcongr]
  have h0 := filter_enumFrom_window bb cc l 0
  simpa [List.enum] using h0

/-- Helper: length of the padded nonempty list. -/
theorem length_padTotal {α : Type*} (x : α) (xs : List α) (b : ℕ) :
    (padTotal (x :: xs) b).length = xs.length + 1 + 2 * b := by
  simp [padTotal]
  omega

/-- Helper: deleting the removed indices of the padded length from the
padded list recovers the original list. -/
theorem np_delete_padTotal {α : Type*} (x : α) (xs : List α) (b : ℕ) (hb : b ≠ 0) :
    np_delete (padTotal (x :: xs) b)
        (removedIndices (xs.length + 1 + 2 * b) b) = x :: xs := by
  rw [np_delete_window (padTotal (x :: xs) b) _ b (xs.length + 1 + b) ?hmem]
  case hmem =>
    intro i hi
    rw [length_padTotal] at hi
    rw [mem_removedIndices hb (by omega) hi]
    omega
  show (((List.replicate b x ++ (x :: xs)) ++
      List.replicate b ((x :: xs).getLast (List.cons_ne_nil x xs))).take
        (xs.length + 1 + b)).drop b = x :: xs
  rw [List.take_left' (by simp; omega), List.drop_left' (by simp)]

/-- Helper: 1-D unpad of pad returns the input, for nonempty input and
positive boundary. -/
theorem pad_unpad_list {α : Type*} (data : List α) (config : FilterConfiguration)
    (hne : data ≠ []) (hb : 1 ≤ config.appendage) :
    (add_appendage data config).map (fun d => remove_appendage d config)
      = some data := by
  obtain ⟨x, xs, rfl⟩ := List.exists_cons_of_ne_nil hne
  rw [show add_appendage (x :: xs) config
    = some (padTotal (x :: xs) config.appendage) from rfl]
  rw [Option.map_some']
  congr 1
  unfold remove_appendage
  rw [length_padTotal]
  exact np_delete_padTotal x xs config.appendage (by omega)

/-- Helper: on rows that are all nonempty, the 2-D padding succeeds and
pads every row. -/
theorem add_appendage2_eq_map {α : Type*} (config : FilterConfiguration) :
    ∀ (data : List (List α)), (∀ r ∈ data, r ≠ []) →
      add_appendage2 data config
        = some (data.map (fun r => padTotal r config.appendage)) := by
  intro data
  induction data with
  | nil => intro _; rfl
  | cons r rest ih =>
    intro hall
    have hr : r ≠ [] := hall r (by simp)
    obtain ⟨x, xs, rfl⟩ := List.exists_cons_of_ne_nil hr
    have hrest := ih (fun s hs => hall s (by simp [hs]))
    unfold add_appendage2 at hrest ⊢
    rw [List.mapM_cons, show add_appendage (x :: xs) config
      = some (padTotal (x :: xs) config.appendage) from rfl, hrest]
    simp

/-- Helper: mapping a function that fixes every member is the identity. -/
theorem map_eq_self_of_mem {α : Type*} {f : α → α} :
    ∀ {l : List α}, (∀ a ∈ l, f a = a) → l.map f = l := by
  intro l
  induction l with
  | nil => intro _; rfl
  | cons a t ih =>
    intro h
    rw [List.map_cons, h a (by simp), ih (fun b hb => h b (by simp [hb]))]

/-- Helper: 2-D unpad of pad returns the input, for a rectangular input
with at least one column and positive boundary. -/
theorem pad_unpad_matrix {α : Type*} (data : List (List α))
    (config : FilterConfiguration) (n : ℕ) (hn : 1 ≤ n)
    (hrect : ∀ r ∈ data, r.length = n) (hb : 1 ≤ config.appendage) :
    (add_appendage2 data config).map (fun d => remove_appendage2 d config)
      = some data := by
  have hne : ∀ r ∈ data, r ≠ [] := by
    intro r hr hnil
    have hlen := hrect r hr
    rw [hnil] at hlen
    simp at hlen
    omega
  rw [add_appendage2_eq_map config data hne, Option.map_some']
  congr 1
  cases data with
  | nil => rfl
  | cons r rest =>
    obtain ⟨x, xs, rfl⟩ := List.exists_cons_of_ne_nil (hne r (by simp))
    rw [List.map_cons]
    unfold remove_appendage2
    rw [List.headD_cons, length_padTotal]
    have hxs : xs.length + 1 = n := by
      have hlen := hrect (x :: xs) (by simp)
      simpa using hlen
    rw [List.map_cons]
    congr 1
    · exact np_delete_padTotal x xs config.appendage (by omega)
    · rw [List.map_map]
      apply map_eq_self_of_mem
      intro s hs
      obtain ⟨y, ys, rfl⟩ :=
        List.exists_cons_of_ne_nil (hne s (by simp [hs]))
      have hys : ys.length + 1 = n := by
        have hlen := hrect (y :: ys) (by simp [hs])
        simpa using hlen
      simp only [Function.comp]
      rw [show xs.length + 1 + 2 * config.appendage
        = ys.length + 1 + 2 * config.appendage by omega]
      exact np_delete_padTotal y ys config.appendage (by omega)

/- Claim C1: pad and unpad. -/

/-- C1 counterexample: with boundary b = 0, remove_appendage deletes
every sample (Python indices[-0:] is the whole list), so
unpad(pad(A, 0), 0) is the empty array, not A. -/
theorem pad_unpad_zero_boundary_cex :
    (add_appendage [(1 : ℤ)] (FilterConfiguration.init 8 0 0)).map
        (fun d => remove_appendage d (FilterConfiguration.init 8 0 0))
      ≠ some [(1 : ℤ)] := by decide

/-- C1 (amended): for every nonempty array A and every boundary b >= 1,
unpad(pad(A, b), b) = A, along the last axis for 1-D input and along
axis 1 for rectangular 2-D input with at least one column. -/
theorem pad_unpad_inverse :
    (∀ (α : Type) (data : List α) (config : FilterConfiguration),
        data ≠ [] → 1 ≤ config.appendage →
        (add_appendage data config).map (fun d => remove_appendage d config)
          = some data) ∧
    (∀ (α : Type) (data : List (List α)) (config : FilterConfiguration) (n : ℕ),
        1 ≤ n → (∀ row ∈ data, row.length = n) → 1 ≤ config.appendage →
        (add_appendage2 data config).map (fun d => remove_appendage2 d config)
          = some data) :=
  ⟨fun _ data config hne hb => pad_unpad_list data config hne hb,
   fun _ data config n hn hrect hb => pad_unpad_matrix data config n hn hrect hb⟩

/-- Witness for the amended C1 at concrete integer arrays with b = 1. -/
theorem pad_unpad_inverse_witness :
    (add_appendage [(1 : ℤ), 2] (FilterConfiguration.init 8 0 1)).map
        (fun d => remove_appendage d (FilterConfiguration.init 8 0 1))
      = some [(1 : ℤ), 2] ∧
    (add_appendage2 [[(1 : ℤ)], [2]] (FilterConfiguration.init 8 0 1)).map
        (fun d => remove_appendage2 d (FilterConfiguration.init 8 0 1))
      = some [[(1 : ℤ)], [2]] :=
  ⟨pad_unpad_inverse.1 ℤ [1, 2] (FilterConfiguration.init 8 0 1)
      (by decide) (by decide),
   pad_unpad_inverse.2 ℤ [[1], [2]] (FilterConfiguration.init 8 0 1) 1
      (by decide) (by decide) (by decide)⟩

/- Claim C6: the lever-arm closed form. -/

/-- C6: for every arm with the perpendicular components not both zero and
every angle, calculate_lever_arm returns exactly the closed form of the
spec: [-arm[0], c*sin(phi), -c*cos(phi)] with c = sqrt(arm[1]^2 +
arm[2]^2), alpha = arccos(arm[2]/c), phi = angle - alpha. -/
theorem lever_arm_closed_form (arm : Vec3) (angle : ℝ)
    (_h : ¬(arm.y = 0 ∧ arm.z = 0)) :
    calculate_lever_arm arm angle = leverArmSpec arm angle := by
  simp only [calculate_lever_arm, leverArmSpec]
  rw [show arm.y * arm.y + arm.z * arm.z = arm.y ^ 2 + arm.z ^ 2 by ring]

/-- Witness for C6 at a concrete arm. -/
theorem lever_arm_closed_form_witness :
    calculate_lever_arm ⟨1, 1, 1⟩ 0 = leverArmSpec ⟨1, 1, 1⟩ 0 :=
  lever_arm_closed_form ⟨1, 1, 1⟩ 0 (by simp)

/- Claim C2: the angle = 0 special case of the lever-arm resolver. -/

/-- C2 counterexample: at arm = [0, 1, 0] and angle = 0 the resolver does
not return [-arm[0], 0, -c]: its y component is -1, not 0. -/
theorem lever_arm_angle_zero_cex :
    calculate_lever_arm ⟨0, 1, 0⟩ 0 ≠ ⟨-(0 : ℝ), 0, -Real.sqrt (1 ^ 2 + 0 ^ 2)⟩ := by
  intro hEq
  have hy : (calculate_lever_arm ⟨0, 1, 0⟩ 0).y = -1 := by
    simp [calculate_lever_arm, Real.sqrt_one, Real.arccos_zero,
      Real.sin_pi_div_two]
  rw [hEq] at hy
  norm_num at hy

/-- C2 (amended): with angle = 0 the resolver returns
[-arm[0], -abs(arm[1]), -arm[2]] for every arm whose perpendicular
components are not both zero (this reduces to [-arm[0], 0, -c] exactly
when arm[1] = 0 and arm[2] > 0). -/
theorem lever_arm_angle_zero (arm : Vec3) (h : ¬(arm.y = 0 ∧ arm.z = 0)) :
    calculate_lever_arm arm 0 = ⟨-arm.x, -|arm.y|, -arm.z⟩ := by
  have hpos : 0 < arm.y * arm.y + arm.z * arm.z := by
    rcases not_and_or.mp h with hy | hz
    · nlinarith [mul_self_pos.mpr hy, mul_self_nonneg arm.z]
    · nlinarith [mul_self_pos.mpr hz, mul_self_nonneg arm.y]
  have hcpos : 0 < Real.sqrt (arm.y * arm.y + arm.z * arm.z) :=
    Real.sqrt_pos.mpr hpos
  have hcne : Real.sqrt (arm.y * arm.y + arm.z * arm.z) ≠ 0 := ne_of_gt hcpos
  have hcsq : Real.sqrt (arm.y * arm.y + arm.z * arm.z) ^ 2
      = arm.y * arm.y + arm.z * arm.z := Real.sq_sqrt hpos.le
  have hzc : |arm.z| ≤ Real.sqrt (arm.y * arm.y + arm.z * arm.z) := by
    have h1 : Real.sqrt (arm.z * arm.z)
        ≤ Real.sqrt (arm.y * arm.y + arm.z * arm.z) :=
      Real.sqrt_le_sqrt (by nlinarith [mul_self_nonneg arm.y])
    rwa [Real.sqrt_mul_self_eq_abs] at h1
  simp only [calculate_lever_arm, Vec3.mk.injEq]
  refine ⟨trivial, ?_, ?_⟩
  · rw [zero_sub, Real.sin_neg, Real.sin_arccos]
    have hsq : 1 - (arm.z / Real.sqrt (arm.y * arm.y + arm.z * arm.z)) ^ 2
        = (|arm.y| / Real.sqrt (arm.y * arm.y + arm.z * arm.z)) ^ 2 := by
      rw [div_pow, div_pow, sq_abs, hcsq]
      field_simp
      ring
    rw [hsq, Real.sqrt_sq (by positivity)]
    field_simp
    ring
  · have hlo : -1 ≤ arm.z / Real.sqrt (arm.y * arm.y + arm.z * arm.z) := by
      rw [le_div_iff₀ hcpos]
      nlinarith [(abs_le.mp hzc).1]
    have hhi : arm.z / Real.sqrt (arm.y * arm.y + arm.z * arm.z) ≤ 1 := by
      rw [div_le_one hcpos]
      exact (abs_le.mp hzc).2
    rw [zero_sub, Real.cos_neg, Real.cos_arccos hlo hhi]
    field_simp

/-- Witness for the amended C2 at a concrete arm. -/
theorem lever_arm_angle_zero_witness :
    calculate_lever_arm ⟨2, 3, 4⟩ 0 = ⟨-(2 : ℝ), -|(3 : ℝ)|, -(4 : ℝ)⟩ :=
  lever_arm_angle_zero ⟨2, 3, 4⟩ (by simp)

/- Claim C3: behaviour of the resolver on degenerate geometry. -/

/-- C3 counterexample: with both perpendicular components zero the
resolver raises nothing and still hands a 3-vector back to the caller;
at arm = [1, 0, 0] the returned axial component is exactly -1 (numpy 0/0
only emits a warning, so the Python function returns rather than
raising). -/
theorem lever_arm_degenerate_returns_cex :
    (calculate_lever_arm ⟨1, 0, 0⟩ 0).x = -1 := by
  simp [calculate_lever_arm]

/-- C3 (amended): with both perpendicular components zero
calculate_lever_arm raises no error: it returns a 3-vector whose axial
component is exactly -arm[0] (the perpendicular components are IEEE NaNs
and carry no information). -/
theorem lever_arm_degenerate_no_error (arm : Vec3) (angle : ℝ)
    (_hy : arm.y = 0) (_hz : arm.z = 0) :
    (calculate_lever_arm arm angle).x = -arm.x := by
  simp [calculate_lever_arm]

/-- Witness for the amended C3 at a concrete degenerate arm. -/
theorem lever_arm_degenerate_no_error_witness :
    (calculate_lever_arm ⟨1, 0, 0⟩ 37).x = -(1 : ℝ) :=
  lever_arm_degenerate_no_error ⟨1, 0, 0⟩ 37 rfl rfl

/- Helper lemmas for the trajectory pipeline. -/

/-- Helper: getD of a mapped list inside bounds. -/
theorem getD_map_of_lt {α β : Type*} (f : α → β) (l : List α) (i : ℕ)
    (d : β) (e : α) (h : i < l.length) :
    (l.map f).getD i d = f (l.getD i e) := by
  induction l generalizing i with
  | nil => simp at h
  | cons a t ih =>
    cases i with
    | zero => simp
    | succ j =>
        simp only [List.map_cons, List.getD_cons_succ]
        exact ih j (by simp only [List.length_cons] at h; omega)

/-- Helper: getD of a zipWith inside bounds. -/
theorem getD_zipWith_of_lt {α β γ : Type*} (f : α → β → γ) (l1 : List α)
    (l2 : List β) (i : ℕ) (d : γ) (e1 : α) (e2 : β)
    (h1 : i < l1.length) (h2 : i < l2.length) :
    (List.zipWith f l1 l2).getD i d = f (l1.getD i e1) (l2.getD i e2) := by
  induction l1 generalizing l2 i with
  | nil => simp at h1
  | cons a t ih =>
    cases l2 with
    | nil => simp at h2
    | cons b u =>
      cases i with
      | zero => simp
      | succ j =>
        simp only [List.zipWith_cons_cons, List.getD_cons_succ]
        exact ih u j (by simp only [List.length_cons] at h1; omega)
          (by simp only [List.length_cons] at h2; omega)

/-- Helper: the sandwich by the identity quaternion is the identity. -/
@[simp]
theorem rotate_vec_one (v : Vec3) : rotate_vec 1 v = v := by
  simp [rotate_vec, vector_to_quaternion, quaternion_to_vector]

/- Claim C5: sensor composition. -/

/-- C5: calculate_transducer_trajectory composes each sample as
trans_pos[i] = cam_pos[i] + rotate(lever_arm[i], cam_att[i]) with the
sandwich product q * v * q⁻¹, v embedded as a pure quaternion (the code
multiplies by the conjugate, which equals the inverse for the unit
attitude quaternions of the Pose invariant, stated here as the
hypothesis q * star q = 1); in particular a trajectory of identical
poses with identity attitude and zero lever arm returns the camera
positions unchanged. -/
theorem transducer_trajectory_composition :
    (∀ (cp : List Vec3) (ca : List (Quaternion ℝ)) (la : List Vec3) (i : ℕ),
        i < cp.length → i < ca.length → i < la.length →
        ca.getD i 1 * star (ca.getD i 1) = 1 →
        (calculate_transducer_trajectory cp ca la).getD i 0 =
          cp.getD i 0 + quaternion_to_vector
            (ca.getD i 1 * vector_to_quaternion (la.getD i 0)
              * (ca.getD i 1)⁻¹)) ∧
    (∀ (n : ℕ) (cp : List Vec3), cp.length = n →
        calculate_transducer_trajectory cp (List.replicate n 1)
          (List.replicate n 0) = cp) := by
  constructor
  · intro cp ca la i h1 h2 h3 hu
    have hinv : (ca.getD i 1)⁻¹ = star (ca.getD i 1) :=
      inv_eq_of_mul_eq_one_right hu
    simp only [calculate_transducer_trajectory]
    rw [getD_zipWith_of_lt (fun p v => p + v) cp
      (List.zipWith (fun q v => rotate_vec q v) ca la) i 0 0 0 h1
      (by simp only [List.length_zipWith]; omega)]
    rw [getD_zipWith_of_lt (fun q v => rotate_vec q v) ca la i 0 1 0 h2 h3]
    rw [hinv]
    rfl
  · intro n cp hlen
    induction cp generalizing n with
    | nil => simp [calculate_transducer_trajectory]
    | cons p ps ih =>
      cases n with
      | zero => simp at hlen
      | succ m =>
        have hm : ps.length = m := by simpa using hlen
        have htail := ih m hm
        simp only [calculate_transducer_trajectory] at htail
        simp only [calculate_transducer_trajectory, List.replicate_succ,
          List.zipWith_cons_cons, rotate_vec_one, Vec3.add_zero_vec]
        rw [htail]

/-- Witness for C5 at a one-sample trajectory with identity attitude and
zero lever arm. -/
theorem transducer_trajectory_composition_witness :
    ((calculate_transducer_trajectory [⟨1, 2, 3⟩] [1] [0]).getD 0 0 =
      ([⟨1, 2, 3⟩] : List Vec3).getD 0 0 + quaternion_to_vector
        (([1] : List (Quaternion ℝ)).getD 0 1
          * vector_to_quaternion (([0] : List Vec3).getD 0 0)
          * (([1] : List (Quaternion ℝ)).getD 0 1)⁻¹)) ∧
    calculate_transducer_trajectory [⟨1, 2, 3⟩] (List.replicate 1 1)
        (List.replicate 1 0) = [⟨1, 2, 3⟩] :=
  ⟨transducer_trajectory_composition.1 [⟨1, 2, 3⟩] [1] [0] 0
      (by simp) (by simp) (by simp) (by simp),
   transducer_trajectory_composition.2 1 [⟨1, 2, 3⟩] (by simp)⟩

/- Claim C4: the translation of the georeferencing stage. -/

/-- C4: for a nonempty transducer trajectory, after
georeference_trajectories the first returned transducer position equals
the supplied absolute initial position exactly. -/
theorem georeference_initial_position (cp : List Vec3)
    (ca : List (Quaternion ℝ)) (tp : List Vec3) (ip ia : Vec3)
    (h : tp ≠ []) :
    (georeference_trajectories cp ca tp ip ia).map (fun out => out.2.2.head?)
      = some (some ip) := by
  obtain ⟨t, ts, rfl⟩ := List.exists_cons_of_ne_nil h
  simp [georeference_trajectories, Vec3.sub_self_add]

/-- Witness for C4 at a concrete one-sample trajectory. -/
theorem georeference_initial_position_witness :
    (georeference_trajectories [] [] [⟨0, 0, 0⟩] ⟨1, 2, 3⟩ ⟨0, 0, 0⟩).map
        (fun out => out.2.2.head?) = some (some ⟨1, 2, 3⟩) :=
  georeference_initial_position [] [] [⟨0, 0, 0⟩] ⟨1, 2, 3⟩ ⟨0, 0, 0⟩ (by simp)

/- Claim C9: the translation preserves relative offsets and attitudes. -/

/-- C9: the returned attitudes of georeference_trajectories are exactly
the rotated input attitudes (the translation step does not touch them),
and at every sample index the difference between the returned transducer
and camera positions equals the difference of the rotated (pre-
translation) positions: translating both by the common offset preserves
relative offsets. -/
theorem georeference_translation_offset (cp : List Vec3)
    (ca : List (Quaternion ℝ)) (tp : List Vec3) (ip ia : Vec3)
    (camr : List Vec3) (attr : List (Quaternion ℝ)) (transr : List Vec3)
    (h : georeference_trajectories cp ca tp ip ia = some (camr, attr, transr)) :
    attr = ca.map (fun q => georefRotation ia * q) ∧
    ∀ i, i < cp.length → i < tp.length →
      transr.getD i 0 - camr.getD i 0 =
        rotate_vec (georefRotation ia) (tp.getD i 0)
          - rotate_vec (georefRotation ia) (cp.getD i 0) := by
  cases tp with
  | nil => simp [georeference_trajectories] at h
  | cons t ts =>
    have hh : georeference_trajectories cp ca (t :: ts) ip ia
        = some
          ((cp.map (fun p => rotate_vec (georefRotation ia) p)).map
            (fun p => p - rotate_vec (georefRotation ia) t + ip),
           ca.map (fun q => georefRotation ia * q),
           ((t :: ts).map (fun p => rotate_vec (georefRotation ia) p)).map
            (fun p => p - rotate_vec (georefRotation ia) t + ip)) := rfl
    rw [hh, Option.some.injEq] at h
    injection h with h1 h23
    injection h23 with h2 h3
    subst h1
    subst h2
    subst h3
    refine ⟨rfl, ?_⟩
    intro i hi1 hi2
    rw [getD_map_of_lt (fun p => p - rotate_vec (georefRotation ia) t + ip)
      ((t :: ts).map (fun p => rotate_vec (georefRotation ia) p)) i 0 0
      (by simp only [List.length_map]; exact hi2)]
    rw [getD_map_of_lt (fun p => rotate_vec (georefRotation ia) p)
      (t :: ts) i 0 0 hi2]
    rw [getD_map_of_lt (fun p => p - rotate_vec (georefRotation ia) t + ip)
      (cp.map (fun p => rotate_vec (georefRotation ia) p)) i 0 0
      (by simp only [List.length_map]; exact hi1)]
    rw [getD_map_of_lt (fun p => rotate_vec (georefRotation ia) p) cp i 0 0 hi1]
    exact Vec3.sub_translate _ _ _ _

/-- Witness for C9 at a concrete one-sample trajectory. -/
theorem georeference_translation_offset_witness :
    (([] : List (Quaternion ℝ))
        = ([] : List (Quaternion ℝ)).map (fun q => georefRotation ⟨0, 0, 0⟩ * q)) ∧
    (∀ i, i < ([⟨(0 : ℝ), 0, 0⟩] : List Vec3).length →
        i < ([⟨(0 : ℝ), 0, 0⟩] : List Vec3).length →
        ([⟨(0 : ℝ), 0, 0⟩] : List Vec3).getD i 0
            - ([⟨(0 : ℝ), 0, 0⟩] : List Vec3).getD i 0 =
          rotate_vec (georefRotation ⟨0, 0, 0⟩)
              (([⟨(0 : ℝ), 0, 0⟩] : List Vec3).getD i 0)
            - rotate_vec (georefRotation ⟨0, 0, 0⟩)
              (([⟨(0 : ℝ), 0, 0⟩] : List Vec3).getD i 0)) :=
  georeference_translation_offset [⟨0, 0, 0⟩] [] [⟨0, 0, 0⟩] ⟨0, 0, 0⟩ ⟨0, 0, 0⟩
    [⟨0, 0, 0⟩] [] [⟨0, 0, 0⟩]
    (by simp [georeference_trajectories, Vec3.sub_self_add])

end Nav
